import Mathlib

/-!
Shallow embedding of the maestro agent service:
  - src/maestro/memory/chroma_memory_service.py (embedder, memory service)
  - src/maestro/agent.py (echo agent)
  - src/main.py (HTTP endpoint handlers)

Python floats that only ever hold exact values of the form n/255 are
modelled as rationals; Python strings as Lean strings (ord = code point);
Optional fields as Option. The external chromadb collection is not part of
this repository, so its record store is modelled from the spec (see the
doc comments of the definitions concerned).
-/

namespace Maestro

/-- A genai content part; the text field may be absent (None). -/
structure Part where
  text : Option String
deriving Repr, DecidableEq

/-- A genai content: an ordered list of parts. -/
structure Content where
  parts : List Part
deriving Repr, DecidableEq

/-- A session event (one conversational turn): author, optional content,
and a numeric timestamp. -/
structure Event where
  author : String
  content : Option Content
  timestamp : Nat
deriving Repr, DecidableEq

/-- A session: identity plus the ordered event log. -/
structure Session where
  id : String
  app_name : String
  user_id : String
  events : List Event
deriving Repr, DecidableEq

/-! ## Embedder (src/maestro/memory/chroma_memory_service.py, `_embed_text`) -/

/-- Fixed embedding width, `_EMBED_DIM = 32` in the source. -/
def EMBED_DIM : Nat := 32

/-- Embedding of `_embed_text`: `vec = [float(ord(c) % 256) / 255 for c in
text[:_EMBED_DIM]]`, then right-pad with `0.0` to `_EMBED_DIM`. -/
def _embed_text (text : String) : List ℚ :=
  let vec := (text.toList.take EMBED_DIM).map (fun c => ((c.toNat % 256 : ℕ) : ℚ) / 255)
  vec ++ List.replicate (EMBED_DIM - vec.length) 0

example : _embed_text "" = List.replicate 32 0 := by decide
example : (_embed_text "a").length = 32 := by decide

/-! ## Memory store (src/maestro/memory/chroma_memory_service.py) -/

/-- Metadata persisted with each record, exactly the dict literal built in
`add_session_to_memory`. -/
structure Metadata where
  app_name : String
  user_id : String
  session_id : String
  author : String
  timestamp : String
deriving Repr, DecidableEq

/-- One record of the vector collection: id, document text, metadata and
embedding, as handed to the collection in `add_session_to_memory`. -/
structure MemoryRecord where
  id : String
  document : String
  metadata : Metadata
  embedding : List ℚ
deriving Repr, DecidableEq

/-- Modelled from the spec: the chromadb persistent collection is an external
collaborator, not code of this repository. Per the spec, records are keyed by
a unique `id` and adding a record whose id is already present upserts it
(replaces the stored record) instead of duplicating it. -/
def upsertRecord (store : List MemoryRecord) (r : MemoryRecord) : List MemoryRecord :=
  if store.any (fun s => s.id = r.id) then
    store.map (fun s => if s.id = r.id then r else s)
  else store ++ [r]

/-- Modelled from the spec: the collection ingests a batch of records by
upserting them in order (see `upsertRecord`). -/
def collectionAdd (store : List MemoryRecord) (rs : List MemoryRecord) : List MemoryRecord :=
  rs.foldl upsertRecord store

/-- Modelled from the spec: `google.adk.memory._utils.format_timestamp` lives
outside this repository; the spec only requires a timestamp string in the
metadata, so we render the numeric timestamp in decimal. -/
def format_timestamp (t : Nat) : String := toString t

/-- Text content of an event as `add_session_to_memory` extracts it:
skip events with no content or no parts, keep the truthy (present and
non-empty) part texts, skip the event when none remain, else join the
kept texts with a single space. -/
def eventText (e : Event) : Option String :=
  match e.content with
  | none => none
  | some c =>
    if c.parts.isEmpty then none
    else
      let text_parts := c.parts.filterMap (fun p =>
        match p.text with
        | none => none
        | some t => if t = "" then none else some t)
      if text_parts.isEmpty then none
      else some (String.intercalate " " text_parts)

/-- The batch of records that `add_session_to_memory` accumulates for a
session: for each `(idx, event)` of `enumerate(session.events)` whose text
qualifies, the record with id `session.id ++ "-" ++ idx`, the joined text as
document, the metadata dict, and the embedding of the text. -/
def sessionRecords (session : Session) : List MemoryRecord :=
  session.events.enum.filterMap (fun ie =>
    (eventText ie.2).map (fun text =>
      { id := session.id ++ "-" ++ toString ie.1
        document := text
        metadata :=
          { app_name := session.app_name
            user_id := session.user_id
            session_id := session.id
            author := ie.2.author
            timestamp := format_timestamp ie.2.timestamp }
        embedding := _embed_text text }))

/-- One batch call to the collection, with its four parallel argument lists
(`ids`, `documents`, `metadatas`, `embeddings`). -/
structure AddBatch where
  ids : List String
  documents : List String
  metadatas : List Metadata
  embeddings : List (List ℚ)
deriving Repr, DecidableEq

/-- Embedding of `ChromaMemoryService.add_session_to_memory`: build the four
parallel lists over the enumerated events, and if `docs` is non-empty issue
exactly one batch call to the collection. Returns the new store state
together with the list of batch calls issued (empty or a singleton). -/
def add_session_to_memory (store : List MemoryRecord) (session : Session) :
    List MemoryRecord × List AddBatch :=
  let recs := sessionRecords session
  if recs.isEmpty then (store, [])
  else
    (collectionAdd store recs,
     [{ ids := recs.map (fun r => r.id)
        documents := recs.map (fun r => r.document)
        metadatas := recs.map (fun r => r.metadata)
        embeddings := recs.map (fun r => r.embedding) }])

/-- Squared euclidean distance between two vectors, the default chroma
distance metric. -/
def sqDist (a b : List ℚ) : ℚ :=
  ((a.zip b).map (fun p => (p.1 - p.2) * (p.1 - p.2))).sum

/-- Modelled from the spec: the chromadb nearest-neighbor query is external
to this repository. Per the spec it returns the stored (document, metadata)
pairs ordered by the distance metric ascending (closest first), truncated
to the requested `n_results`. -/
def collectionQuery (store : List MemoryRecord) (e : List ℚ) (k : Nat) : List MemoryRecord :=
  (store.insertionSort (fun a b => sqDist a.embedding e ≤ sqDist b.embedding e)).take k

/-- One entry of a search response (`google.adk.memory.memory_entry.MemoryEntry`):
content built from the stored document, author and timestamp taken from the
stored metadata. -/
structure MemoryEntry where
  content : Option Content
  author : String
  timestamp : String
deriving Repr, DecidableEq

/-- A search response: its (initially empty) list of memories. -/
structure SearchMemoryResponse where
  memories : List MemoryEntry
deriving Repr, DecidableEq

/-- Embedding of `ChromaMemoryService.search_memory`: query the collection
with the embedded query text and `n_results=5`, then append one `MemoryEntry`
per returned (document, metadata) pair in order. The `app_name` and
`user_id` arguments are accepted but unused, as in the source. -/
def search_memory (app_name user_id : String) (query : String)
    (store : List MemoryRecord) : SearchMemoryResponse :=
  let result := collectionQuery store (_embed_text query) 5
  { memories := result.map (fun r =>
      { content := some { parts := [{ text := some r.document }] }
        author := r.metadata.author
        timestamp := r.metadata.timestamp }) }

/-! ## Agent (src/maestro/agent.py, `MaestroAgent._run_async_impl`) -/

/-- One chat message as `_run_async_impl` accumulates them. -/
structure Message where
  role : String
  content : String
deriving Repr, DecidableEq

/-- Text of an event as the agent extracts it: skip events with no content
or no parts, join the truthy part texts with a space, skip when the joined
text is empty. (The join is empty exactly when no truthy part exists, so
this agrees with `eventText`; we keep each module faithful to its file.) -/
def agentEventText (e : Event) : Option String :=
  match e.content with
  | none => none
  | some c =>
    if c.parts.isEmpty then none
    else
      let text := String.intercalate " " (c.parts.filterMap (fun p =>
        match p.text with
        | none => none
        | some t => if t = "" then none else some t))
      if text = "" then none else some text

/-- The user-content branch of `_run_async_impl`: when `ctx.user_content`
is set and has parts, join its truthy part texts; append a user message
when the join is non-empty. -/
def userMessage (user_content : Option Content) : Option Message :=
  match user_content with
  | none => none
  | some c =>
    if c.parts.isEmpty then none
    else
      let user_text := String.intercalate " " (c.parts.filterMap (fun p =>
        match p.text with
        | none => none
        | some t => if t = "" then none else some t))
      if user_text = "" then none else some { role := "user", content := user_text }

/-- Embedding of `MaestroAgent._run_async_impl`: build the message list from
the session events plus the optional user content, echo the last message
(or produce `""` when there is none), and yield a single event carrying
that text. -/
def run_async_impl (events : List Event) (user_content : Option Content)
    (agentName : String) : List Event :=
  let messages := events.filterMap (fun e =>
    (agentEventText e).map (fun t => { role := e.author, content := t }))
  let messages := match userMessage user_content with
    | none => messages
    | some m => messages ++ [m]
  let content_text := match messages.getLast? with
    | none => ""
    | some m => "Echo: " ++ m.content
  [{ author := agentName
     content := some { parts := [{ text := some content_text }] }
     timestamp := 0 }]

/-- Spec-side description of the agent response, following the words of the
spec: the response is the literal `"Echo: "` followed by the space-joined
non-empty text fragments of the most recent entry of the combined history
that had non-empty text, and the empty string when no entry has text. -/
def respondSpec (combined : List Event) : String :=
  match (combined.filterMap agentEventText).getLast? with
  | none => ""
  | some t => "Echo: " ++ t

/-- The newest user input regarded as one more history entry with author
`"user"`, for phrasing the combined history of the spec. -/
def userEvent (c : Content) : Event :=
  { author := "user", content := some c, timestamp := 0 }

/-- Text carried by the first part of the first event of an agent response,
used to state theorems about the yielded event. -/
def responseText (events : List Event) : String :=
  match events with
  | [] => ""
  | e :: _ =>
    match e.content with
    | none => ""
    | some c =>
      match c.parts with
      | [] => ""
      | p :: _ => p.text.getD ""

/-! ## API layer (src/main.py) -/

/-- Outcome of an endpoint handler: a payload or an HTTPException with a
status code and detail string. -/
inductive ApiResult (α : Type) where
  | ok : α → ApiResult α
  | httpError : Nat → String → ApiResult α
deriving Repr, DecidableEq

/-- Embedding of `send_message`: wrap the request message in a single-part
user content, run the agent over the session events with it, collect the
truthy first-part texts of the yielded events, answer 500 when none was
collected and the last collected text otherwise. (The ADK runner machinery
is an external collaborator; the events the handler iterates over are the
ones the agent yields.) -/
def send_message (session : Session) (message : String) (agentName : String) :
    ApiResult String :=
  let content : Content := { parts := [{ text := some message }] }
  let events := run_async_impl session.events (some content) agentName
  let responses := events.filterMap (fun e =>
    match e.content with
    | none => none
    | some c =>
      match c.parts with
      | [] => none
      | p :: _ =>
        match p.text with
        | none => none
        | some t => if t = "" then none else some t)
  match responses.getLast? with
  | none => .httpError 500 "No response from agent"
  | some r => .ok r

/-- One element of the memory endpoint response:
`{"author": ..., "text": ..., "timestamp": ...}`. -/
structure MemoryOut where
  author : String
  text : String
  timestamp : String
deriving Repr, DecidableEq

/-- Modelled from the spec: the InMemorySessionService registry is an
external collaborator; it resolves a session id to the stored session,
or to nothing when the id is unknown. -/
def lookupSession (sessions : List Session) (sid : String) : Option Session :=
  sessions.find? (fun s => s.id = sid)

/-- Embedding of `get_memory`: resolve the session (404 when absent, issuing
no search), otherwise search the memory store with the caller-supplied query
and flatten each returned memory to `{author, text, timestamp}` with the
text taken from the truthy first part (else `""`). The second component
counts the search calls issued against the store. -/
def get_memory (sessions : List Session) (store : List MemoryRecord)
    (session_id query : String) : ApiResult (List MemoryOut) × Nat :=
  match lookupSession sessions session_id with
  | none => (.httpError 404 "Session not found", 0)
  | some session =>
    let result := search_memory session.app_name session.user_id query store
    let memories := result.memories.map (fun m =>
      let text := match m.content with
        | none => ""
        | some c =>
          match c.parts with
          | [] => ""
          | p :: _ =>
            match p.text with
            | none => ""
            | some t => if t = "" then "" else t
      { author := m.author, text := text, timestamp := m.timestamp : MemoryOut })
    (.ok memories, 1)

/-! ## Theorems -/

lemma length_embed (s : String) : (_embed_text s).length = 32 := by
  unfold _embed_text EMBED_DIM
  simp only [List.length_append, List.length_map, List.length_take, List.length_replicate]
  omega

lemma mem_embed_bounds (s : String) : ∀ x ∈ _embed_text s, 0 ≤ x ∧ x ≤ 1 := by
  intro x hx
  unfold _embed_text EMBED_DIM at hx
  rcases List.mem_append.1 hx with h | h
  · obtain ⟨c, _, rfl⟩ := List.mem_map.1 h
    constructor
    · positivity
    · rw [div_le_one (by norm_num)]
      have hlt : c.toNat % 256 < 256 := Nat.mod_lt _ (by norm_num)
      exact_mod_cast Nat.lt_succ_iff.mp hlt
  · rw [List.eq_of_mem_replicate h]
    norm_num

lemma getD_replicate_zero (n i : Nat) : (List.replicate n (0 : ℚ)).getD i 0 = 0 := by
  rw [List.getD_eq_getElem?_getD, List.getElem?_replicate]
  split <;> rfl

/-- C2: _embed_text maps text to a vector of length exactly 32, taking
component i from character i as (code point mod 256)/255 for i below the
text length, padding with zeros above it, with every component in the unit
interval, characters beyond the 32nd ignored, and the empty string mapped
to the all-zero vector. -/
theorem embed_text_spec (s : String) :
    (_embed_text s).length = 32 ∧
    (∀ x ∈ _embed_text s, 0 ≤ x ∧ x ≤ 1) ∧
    (∀ i : Nat, i < s.length → i < 32 →
      (_embed_text s).getD i 0 = (((s.toList.getD i 'a').toNat % 256 : ℕ) : ℚ) / 255) ∧
    (∀ i : Nat, s.length ≤ i → i < 32 → (_embed_text s).getD i 0 = 0) ∧
    (∀ t : String, 32 ≤ s.length → _embed_text (s ++ t) = _embed_text s) ∧
    _embed_text "" = List.replicate 32 0 := by
  have hlen : s.length = s.toList.length := rfl
  refine ⟨length_embed s, mem_embed_bounds s, ?_, ?_, ?_, by decide⟩
  · intro i hi hi32
    unfold _embed_text EMBED_DIM
    have hv : i < ((s.toList.take 32).map
        (fun c => ((c.toNat % 256 : ℕ) : ℚ) / 255)).length := by
      simp only [List.length_map, List.length_take]
      omega
    rw [List.getD_append _ _ _ _ hv, List.getD_eq_getElem _ _ hv]
    simp only [List.getElem_map, List.getElem_take]
    rw [List.getD_eq_getElem _ _ (by omega)]
  · intro i hsi hi32
    unfold _embed_text EMBED_DIM
    have hv : ((s.toList.take 32).map
        (fun c => ((c.toNat % 256 : ℕ) : ℚ) / 255)).length ≤ i := by
      simp only [List.length_map, List.length_take]
      omega
    rw [List.getD_append_right _ _ _ _ hv]
    exact getD_replicate_zero _ _
  · intro t hs
    unfold _embed_text EMBED_DIM
    have hdata : (s ++ t).toList = s.toList ++ t.toList := rfl
    rw [hdata, List.take_append_of_le_length (by omega)]

/-- Concrete instantiation of embed_text_spec and its hypotheses. -/
theorem embed_text_spec_witness :
    (_embed_text "hi").length = 32 ∧
    (0 ≤ (_embed_text "hi").getD 0 0 ∧ (_embed_text "hi").getD 0 0 ≤ 1) ∧
    (_embed_text "hi").getD 1 0 = ((("hi").toList.getD 1 'a').toNat % 256 : ℕ) / 255 ∧
    (_embed_text "hi").getD 7 0 = 0 ∧
    _embed_text ("abcdefghijklmnopqrstuvwxyz012345" ++ "67")
      = _embed_text "abcdefghijklmnopqrstuvwxyz012345" := by
  obtain ⟨h1, h2, h3, h4, h5, _⟩ := embed_text_spec "hi"
  obtain ⟨_, _, _, _, h5x, _⟩ := embed_text_spec "abcdefghijklmnopqrstuvwxyz012345"
  have hm : (_embed_text "hi").getD 0 0 ∈ _embed_text "hi" := by
    rw [List.getD_eq_getElem _ _ (by rw [length_embed]; norm_num)]
    exact List.getElem_mem _
  exact ⟨h1, h2 _ hm, h3 1 (by decide) (by decide),
    h4 7 (by decide) (by decide), h5x "67" (by decide)⟩

lemma userMessage_eq (c : Content) :
    userMessage (some c) = (agentEventText (userEvent c)).map
      (fun t => { role := "user", content := t }) := by
  unfold userMessage agentEventText userEvent
  by_cases h : c.parts.isEmpty
  · simp [h]
  · simp only [h, if_false]
    by_cases hX : String.intercalate " " (c.parts.filterMap (fun p =>
        match p.text with
        | none => none
        | some t => if t = "" then none else some t)) = "" <;>
      simp [hX]

lemma map_content_filterMap (l : List Event) :
    (l.filterMap (fun e => (agentEventText e).map
      (fun t => ({ role := e.author, content := t } : Message)))).map
        (fun m => m.content)
    = l.filterMap agentEventText := by
  induction l with
  | nil => rfl
  | cons e l ih =>
    cases h : agentEventText e <;> simp [List.filterMap_cons, h, ih]

lemma echo_match (o : Option Message) :
    (match o with | none => "" | some m => "Echo: " ++ m.content)
      = match o.map (fun m => m.content) with
        | none => ""
        | some t => "Echo: " ++ t := by
  cases o <;> rfl

lemma respond_echo_some (events : List Event) (c : Content) (name : String) :
    responseText (run_async_impl events (some c) name)
      = respondSpec (events ++ [userEvent c]) := by
  have hfm : (events ++ [userEvent c]).filterMap agentEventText
      = events.filterMap agentEventText
        ++ [userEvent c].filterMap agentEventText :=
    List.filterMap_append _ _ _
  have hlast : (events.filterMap agentEventText).getLast?
      = ((events.filterMap (fun e => (agentEventText e).map
          (fun t => ({ role := e.author, content := t } : Message)))).getLast?).map
            (fun m => m.content) := by
    rw [← map_content_filterMap events, List.getLast?_map]
  unfold responseText run_async_impl respondSpec
  rw [userMessage_eq c, hfm]
  cases hA : agentEventText (userEvent c) with
  | none =>
    simp only [Option.map_none, List.filterMap_cons, hA, List.filterMap_nil,
      List.append_nil]
    rw [hlast]
    exact echo_match _
  | some t =>
    simp [List.filterMap_cons, hA]

/-- C3: the agent's response is the literal Echo prefix followed by the
space-joined non-empty text fragments of the most recent entry of the
combined history (prior events plus the newest user input) that had
non-empty text, and the empty string when no entry has text; in particular
on the single history entry of author user with text hi and no new input it
is Echo: hi. -/
theorem respond_echo :
    (∀ (events : List Event) (c : Content) (name : String),
      responseText (run_async_impl events (some c) name)
        = respondSpec (events ++ [userEvent c])) ∧
    (∀ (events : List Event) (name : String),
      responseText (run_async_impl events none name) = respondSpec events) ∧
    responseText (run_async_impl
      [{ author := "user", content := some { parts := [{ text := some "hi" }] },
         timestamp := 0 }] none "maestro") = "Echo: hi" := by
  refine ⟨respond_echo_some, ?_, by rfl⟩
  intro events name
  have hlast : (events.filterMap agentEventText).getLast?
      = ((events.filterMap (fun e => (agentEventText e).map
          (fun t => ({ role := e.author, content := t } : Message)))).getLast?).map
            (fun m => m.content) := by
    rw [← map_content_filterMap events, List.getLast?_map]
  unfold responseText run_async_impl respondSpec userMessage
  rw [hlast]
  exact echo_match _

lemma filterMap_snd_enumFrom {α : Type} (F : Event → Option α) (n : Nat)
    (l : List Event) :
    (List.enumFrom n l).filterMap (fun ie => F ie.2) = l.filterMap F := by
  induction l generalizing n with
  | nil => rfl
  | cons e l ih =>
    cases h : F e <;>
      simp [List.enumFrom, List.filterMap_cons, h, ih]

/-- The metadata dict built for an event in `add_session_to_memory`. -/
def recordMeta (session : Session) (e : Event) : Metadata :=
  { app_name := session.app_name
    user_id := session.user_id
    session_id := session.id
    author := e.author
    timestamp := format_timestamp e.timestamp }

lemma sessionRecords_documents (session : Session) :
    (sessionRecords session).map (fun r => r.document)
      = session.events.filterMap eventText := by
  unfold sessionRecords
  rw [List.map_filterMap]
  simp only [Option.map_map, Function.comp_def, Option.map_id']
  exact filterMap_snd_enumFrom eventText 0 session.events

lemma sessionRecords_metadatas (session : Session) :
    (sessionRecords session).map (fun r => r.metadata)
      = session.events.filterMap
          (fun e => (eventText e).map (fun _ => recordMeta session e)) := by
  unfold sessionRecords
  rw [List.map_filterMap]
  simp only [Option.map_map, Function.comp_def]
  exact filterMap_snd_enumFrom
    (fun e => (eventText e).map (fun _ => recordMeta session e)) 0 session.events

lemma sessionRecords_embeddings (session : Session) :
    (sessionRecords session).map (fun r => r.embedding)
      = session.events.filterMap
          (fun e => (eventText e).map (fun text => _embed_text text)) := by
  unfold sessionRecords
  rw [List.map_filterMap]
  simp only [Option.map_map, Function.comp_def]
  exact filterMap_snd_enumFrom
    (fun e => (eventText e).map (fun text => _embed_text text)) 0 session.events

lemma sessionRecords_ids (session : Session) :
    (sessionRecords session).map (fun r => r.id)
      = session.events.enum.filterMap
          (fun ie => (eventText ie.2).map
            (fun _ => session.id ++ "-" ++ toString ie.1)) := by
  unfold sessionRecords
  rw [List.map_filterMap]
  simp only [Option.map_map]
  rfl

lemma sessionRecords_eq_nil (session : Session)
    (h : ∀ e ∈ session.events, eventText e = none) :
    sessionRecords session = [] := by
  have hd : (sessionRecords session).map (fun r => r.document) = [] := by
    rw [sessionRecords_documents, List.filterMap_eq_nil_iff]
    exact h
  exact List.map_eq_nil_iff.mp hd

/-- C8: committing a session in which no event carries non-empty text is a
no-op: the store state is unchanged and no batch call is issued to the
underlying collection. -/
theorem add_no_qualifying_noop (store : List MemoryRecord) (session : Session)
    (h : ∀ e ∈ session.events, eventText e = none) :
    add_session_to_memory store session = (store, []) := by
  unfold add_session_to_memory
  rw [sessionRecords_eq_nil session h]
  rfl

/-- Concrete instantiation of add_no_qualifying_noop: a session whose only
event has an empty text part is not persisted. -/
theorem add_no_qualifying_noop_witness :
    add_session_to_memory
      [{ id := "s0-0", document := "d",
         metadata := { app_name := "maestro", user_id := "user",
                       session_id := "s0", author := "user", timestamp := "0" },
         embedding := _embed_text "d" }]
      { id := "s1", app_name := "maestro", user_id := "user",
        events := [{ author := "user",
                     content := some { parts := [{ text := some "" }] },
                     timestamp := 3 }] }
    = ([{ id := "s0-0", document := "d",
          metadata := { app_name := "maestro", user_id := "user",
                        session_id := "s0", author := "user", timestamp := "0" },
          embedding := _embed_text "d" }], []) := by
  apply add_no_qualifying_noop
  intro e he
  rw [List.mem_singleton] at he
  rw [he]
  rfl

/-- C5: when neither the session events nor the new user message carry any
non-empty text, the agent's yielded response text is the empty string, and
send_message surfaces this as HTTP 500 instead of a successful empty
response. -/
theorem empty_input_500 (session : Session) (name : String)
    (h : ∀ e ∈ session.events, agentEventText e = none) :
    responseText (run_async_impl session.events
      (some { parts := [{ text := some "" }] }) name) = "" ∧
    send_message session "" name = .httpError 500 "No response from agent" := by
  have hm : session.events.filterMap (fun e => (agentEventText e).map
      (fun t => ({ role := e.author, content := t } : Message))) = [] := by
    rw [List.filterMap_eq_nil_iff]
    intro e he
    rw [h e he]
    rfl
  constructor
  · unfold responseText run_async_impl
    rw [hm]
    rfl
  · unfold send_message run_async_impl
    rw [hm]
    rfl

/-- Concrete instantiation of empty_input_500 on a fresh session. -/
theorem empty_input_500_witness :
    responseText (run_async_impl ([] : List Event)
      (some { parts := [{ text := some "" }] }) "maestro") = "" ∧
    send_message
      { id := "s1", app_name := "maestro", user_id := "user", events := [] }
      "" "maestro"
      = .httpError 500 "No response from agent" :=
  empty_input_500
    { id := "s1", app_name := "maestro", user_id := "user", events := [] }
    "maestro" (by intro e he; cases he)

/-- The single batch call built by `add_session_to_memory` when at least one
event qualifies. -/
def sessionBatch (session : Session) : AddBatch :=
  { ids := (sessionRecords session).map (fun r => r.id)
    documents := (sessionRecords session).map (fun r => r.document)
    metadatas := (sessionRecords session).map (fun r => r.metadata)
    embeddings := (sessionRecords session).map (fun r => r.embedding) }

lemma add_session_eq (store : List MemoryRecord) (session : Session) :
    add_session_to_memory store session =
      if sessionRecords session = [] then (store, [])
      else (collectionAdd store (sessionRecords session),
            [sessionBatch session]) := by
  unfold add_session_to_memory sessionBatch
  by_cases h : sessionRecords session = [] <;> simp [h]

/-- C6: committing a session persists exactly the events with non-empty
joined text content, in at most one batch call: the batch (when one is
issued) carries, in event order, ids built as session id, dash, event
index, the space-joined non-empty text fragments as documents, exactly the
five metadata fields app_name, user_id, session_id, author, timestamp, and
the embedding of each document; no batch is issued exactly when no event
qualifies. -/
theorem add_session_persists (store : List MemoryRecord) (session : Session) :
    (add_session_to_memory store session).2.length ≤ 1 ∧
    ((add_session_to_memory store session).2 = []
      ↔ ∀ e ∈ session.events, eventText e = none) ∧
    (∀ b ∈ (add_session_to_memory store session).2,
      b.ids = session.events.enum.filterMap
        (fun ie => (eventText ie.2).map
          (fun _ => session.id ++ "-" ++ toString ie.1)) ∧
      b.documents = session.events.filterMap eventText ∧
      b.metadatas = session.events.filterMap
        (fun e => (eventText e).map (fun _ => recordMeta session e)) ∧
      b.embeddings = b.documents.map (fun text => _embed_text text)) := by
  rw [add_session_eq]
  by_cases h : sessionRecords session = []
  · rw [if_pos h]
    have hd := sessionRecords_documents session
    rw [h] at hd
    simp only [List.map_nil] at hd
    exact ⟨by simp, ⟨fun _ => List.filterMap_eq_nil_iff.mp hd.symm, fun _ => rfl⟩,
      by simp⟩
  · rw [if_neg h]
    refine ⟨by simp, ⟨fun hfalse => absurd hfalse (List.cons_ne_nil _ _),
      fun hall => absurd (sessionRecords_eq_nil session hall) h⟩, ?_⟩
    intro b hb
    rw [List.mem_singleton] at hb
    subst hb
    refine ⟨sessionRecords_ids session, sessionRecords_documents session,
      sessionRecords_metadatas session, ?_⟩
    show (sessionRecords session).map (fun r => r.embedding)
      = ((sessionRecords session).map (fun r => r.document)).map
          (fun text => _embed_text text)
    rw [sessionRecords_embeddings, sessionRecords_documents,
      List.map_filterMap]

/-- One-event session used to instantiate theorems about the memory
service on a concrete input. -/
def sampleSession : Session :=
  { id := "s1", app_name := "maestro", user_id := "user",
    events := [{ author := "user",
                 content := some { parts := [{ text := some "hi" }] },
                 timestamp := 7 }] }

/-- Concrete instantiation of add_session_persists on a one-event session,
discharging the batch-membership hypothesis. -/
theorem add_session_persists_witness :
    (add_session_to_memory [] sampleSession).2.length ≤ 1 ∧
    (sessionBatch sampleSession).ids
      = sampleSession.events.enum.filterMap
          (fun ie => (eventText ie.2).map
            (fun _ => sampleSession.id ++ "-" ++ toString ie.1)) ∧
    (sessionBatch sampleSession).documents = ["hi"] := by
  have hrec : sessionRecords sampleSession ≠ [] := by
    intro hnil
    have := congrArg (List.map (fun r => r.document)) hnil
    rw [sessionRecords_documents] at this
    simp [sampleSession, eventText] at this
  have hb : sessionBatch sampleSession
      ∈ (add_session_to_memory [] sampleSession).2 := by
    rw [add_session_eq, if_neg hrec]
    exact List.mem_singleton.mpr rfl
  obtain ⟨h1, _, h3⟩ := add_session_persists [] sampleSession
  have hdoc : (sessionBatch sampleSession).documents = ["hi"] := by
    have := (h3 _ hb).2.1
    rw [this]
    rfl
  exact ⟨h1, (h3 _ hb).1, hdoc⟩

lemma upsertRecord_ids (store : List MemoryRecord) (r : MemoryRecord) :
    (upsertRecord store r).map (fun s => s.id)
      = if store.any (fun s => s.id = r.id) then store.map (fun s => s.id)
        else store.map (fun s => s.id) ++ [r.id] := by
  unfold upsertRecord
  by_cases h : store.any (fun s => s.id = r.id)
  · rw [if_pos h, if_pos h, List.map_map]
    apply List.map_congr_left
    intro s _
    by_cases hs : s.id = r.id <;> simp [Function.comp, hs]
  · rw [if_neg h, if_neg h]
    simp

lemma upsertRecord_nodup (store : List MemoryRecord) (r : MemoryRecord)
    (h : (store.map (fun s => s.id)).Nodup) :
    ((upsertRecord store r).map (fun s => s.id)).Nodup := by
  rw [upsertRecord_ids]
  by_cases hc : store.any (fun s => s.id = r.id)
  · rwa [if_pos hc]
  · rw [if_neg hc, List.nodup_append]
    refine ⟨h, List.nodup_singleton _, ?_⟩
    intro x hx hxr
    rw [List.mem_singleton] at hxr
    obtain ⟨s, hs, hsx⟩ := List.mem_map.mp hx
    exact hc (List.any_eq_true.mpr ⟨s, hs, decide_eq_true (hsx.trans hxr)⟩)

lemma mem_ids_upsertRecord (store : List MemoryRecord) (r : MemoryRecord) :
    r.id ∈ (upsertRecord store r).map (fun s => s.id) := by
  rw [upsertRecord_ids]
  by_cases h : store.any (fun s => s.id = r.id)
  · rw [if_pos h]
    obtain ⟨s, hs, hsr⟩ := List.any_eq_true.mp h
    exact List.mem_map.mpr ⟨s, hs, of_decide_eq_true hsr⟩
  · rw [if_neg h]
    exact List.mem_append.mpr (Or.inr (List.mem_singleton.mpr rfl))

lemma mem_ids_upsertRecord_of_mem (store : List MemoryRecord)
    (r : MemoryRecord) (x : String) (hx : x ∈ store.map (fun s => s.id)) :
    x ∈ (upsertRecord store r).map (fun s => s.id) := by
  rw [upsertRecord_ids]
  by_cases h : store.any (fun s => s.id = r.id)
  · rwa [if_pos h]
  · rw [if_neg h]
    exact List.mem_append.mpr (Or.inl hx)

lemma collectionAdd_nodup (recs : List MemoryRecord) :
    ∀ store : List MemoryRecord, (store.map (fun s => s.id)).Nodup →
      ((collectionAdd store recs).map (fun s => s.id)).Nodup := by
  induction recs with
  | nil => exact fun _ h => h
  | cons r recs ih =>
    intro store h
    exact ih (upsertRecord store r) (upsertRecord_nodup store r h)

lemma mem_ids_collectionAdd (recs : List MemoryRecord) :
    ∀ (store : List MemoryRecord) (x : String),
      (x ∈ store.map (fun s => s.id) ∨ ∃ r ∈ recs, r.id = x) →
      x ∈ (collectionAdd store recs).map (fun s => s.id) := by
  induction recs with
  | nil =>
    intro store x hx
    rcases hx with h | ⟨r, hr, _⟩
    · exact h
    · cases hr
  | cons r recs ih =>
    intro store x hx
    rcases hx with h | ⟨q, hq, hqx⟩
    · exact ih _ x (Or.inl (mem_ids_upsertRecord_of_mem store r x h))
    · rcases List.mem_cons.mp hq with rfl | hq2
      · exact ih _ x (Or.inl (hqx ▸ mem_ids_upsertRecord store q))
      · exact ih _ x (Or.inr ⟨q, hq2, hqx⟩)

/-- C1: ids are derived deterministically from (session id, event index), so
committing the same session twice upserts the same keyed records: id
uniqueness of the store is preserved and each qualifying record id occurs
exactly once after the second commit, never duplicated. -/
theorem add_session_idempotent_ids (store : List MemoryRecord)
    (session : Session) (h : (store.map (fun s => s.id)).Nodup) :
    (((add_session_to_memory
        (add_session_to_memory store session).1 session).1).map
          (fun s => s.id)).Nodup ∧
    ∀ r ∈ sessionRecords session,
      (((add_session_to_memory
          (add_session_to_memory store session).1 session).1).filter
            (fun x => x.id == r.id)).length = 1 := by
  by_cases hrec : sessionRecords session = []
  · have e1 : (add_session_to_memory store session).1 = store := by
      rw [add_session_eq, if_pos hrec]
    rw [e1, e1]
    refine ⟨h, ?_⟩
    intro r hr
    rw [hrec] at hr
    cases hr
  · have e1 : (add_session_to_memory store session).1
        = collectionAdd store (sessionRecords session) := by
      rw [add_session_eq, if_neg hrec]
    have e2 : (add_session_to_memory
          (collectionAdd store (sessionRecords session)) session).1
        = collectionAdd (collectionAdd store (sessionRecords session))
            (sessionRecords session) := by
      rw [add_session_eq, if_neg hrec]
    rw [e1, e2]
    have h1 : (((collectionAdd store (sessionRecords session)).map
        (fun s => s.id))).Nodup := collectionAdd_nodup _ store h
    have h2 : (((collectionAdd (collectionAdd store (sessionRecords session))
        (sessionRecords session)).map (fun s => s.id))).Nodup :=
      collectionAdd_nodup _ _ h1
    refine ⟨h2, ?_⟩
    intro r hr
    have hmem : r.id ∈ (collectionAdd
        (collectionAdd store (sessionRecords session))
        (sessionRecords session)).map (fun s => s.id) :=
      mem_ids_collectionAdd _ _ _ (Or.inr ⟨r, hr, rfl⟩)
    have hcount := List.count_eq_one_of_mem h2 hmem
    rw [List.count_eq_countP, List.countP_map,
      List.countP_eq_length_filter] at hcount
    simpa [Function.comp] using hcount

/-- Record persisted for the single event of sampleSession. -/
def sampleRecord : MemoryRecord :=
  { id := "s1-0", document := "hi",
    metadata := { app_name := "maestro", user_id := "user",
                  session_id := "s1", author := "user", timestamp := "7" },
    embedding := _embed_text "hi" }

/-- Concrete instantiation of add_session_idempotent_ids: committing
sampleSession twice into an empty store keeps ids unique and stores exactly
one record with id s1-0. -/
theorem add_session_idempotent_ids_witness :
    (((add_session_to_memory
        (add_session_to_memory [] sampleSession).1 sampleSession).1).map
          (fun s => s.id)).Nodup ∧
    (((add_session_to_memory
        (add_session_to_memory [] sampleSession).1 sampleSession).1).filter
          (fun x => x.id == sampleRecord.id)).length = 1 := by
  have h := add_session_idempotent_ids [] sampleSession (by simp)
  refine ⟨h.1, h.2 sampleRecord ?_⟩
  have hss : sessionRecords sampleSession = [sampleRecord] := rfl
  rw [hss]
  exact List.mem_singleton.mpr rfl

/-- C4: search embeds the query, asks the collection for the top 5 nearest
records, and maps the returned (document, metadata) pairs in order into
memory entries with author and timestamp from the stored metadata; the
result preserves the ranking order (distance ascending, closest first),
has at most 5 entries, and every returned record comes from the store. -/
theorem search_memory_spec (a u q : String) (store : List MemoryRecord) :
    (search_memory a u q store).memories.length ≤ 5 ∧
    (search_memory a u q store).memories
      = (collectionQuery store (_embed_text q) 5).map
          (fun r =>
            { content := some { parts := [{ text := some r.document }] }
              author := r.metadata.author
              timestamp := r.metadata.timestamp }) ∧
    (collectionQuery store (_embed_text q) 5).Pairwise
      (fun r s => sqDist r.embedding (_embed_text q)
        ≤ sqDist s.embedding (_embed_text q)) ∧
    (∀ r ∈ collectionQuery store (_embed_text q) 5, r ∈ store) := by
  refine ⟨?_, rfl, ?_, ?_⟩
  · show ((collectionQuery store (_embed_text q) 5).map _).length ≤ 5
    rw [List.length_map]
    unfold collectionQuery
    exact (List.length_take_le 5 _).trans (le_refl 5)
  · haveI : IsTotal MemoryRecord (fun r s =>
        sqDist r.embedding (_embed_text q) ≤ sqDist s.embedding (_embed_text q)) :=
      ⟨fun r s => le_total _ _⟩
    haveI : IsTrans MemoryRecord (fun r s =>
        sqDist r.embedding (_embed_text q) ≤ sqDist s.embedding (_embed_text q)) :=
      ⟨fun _ _ _ hab hbc => le_trans hab hbc⟩
    exact List.Pairwise.sublist (List.take_sublist 5 _)
      (List.sorted_insertionSort _ store)
  · intro r hr
    have h1 : r ∈ store.insertionSort (fun r s =>
        sqDist r.embedding (_embed_text q) ≤ sqDist s.embedding (_embed_text q)) :=
      List.Sublist.mem hr (List.take_sublist 5 _)
    exact (List.perm_insertionSort _ store).mem_iff.mp h1

/-- Concrete instantiation of search_memory_spec, discharging the
membership hypothesis on a one-record store. -/
theorem search_memory_spec_witness :
    (search_memory "maestro" "user" "hi" [sampleRecord]).memories.length ≤ 5 ∧
    sampleRecord ∈ [sampleRecord] := by
  obtain ⟨h1, _, _, h4⟩ := search_memory_spec "maestro" "user" "hi" [sampleRecord]
  have hq : collectionQuery [sampleRecord] (_embed_text "hi") 5
      = [sampleRecord] := rfl
  exact ⟨h1, h4 sampleRecord (by rw [hq]; exact List.mem_singleton.mpr rfl)⟩

/-- C7: search against the empty store returns an empty memory list and
never an error, and querying the memory endpoint for an existing session
over the empty store succeeds with an empty memories list. -/
theorem search_empty_store (a u q sid : String) (sessions : List Session)
    (s : Session) (hs : lookupSession sessions sid = some s) :
    (search_memory a u q []).memories = [] ∧
    get_memory sessions [] sid q = (.ok [], 1) := by
  have hempty : ∀ a2 u2 : String, (search_memory a2 u2 q []).memories = [] :=
    fun _ _ => rfl
  refine ⟨hempty a u, ?_⟩
  unfold get_memory
  rw [hs]
  simp only [hempty, List.map_nil]

/-- Concrete instantiation of search_empty_store: a freshly created session
with nothing committed yields an empty memory list. -/
theorem search_empty_store_witness :
    (search_memory "maestro" "user" "anything" []).memories = [] ∧
    get_memory [sampleSession] [] "s1" "anything" = (.ok [], 1) :=
  search_empty_store "maestro" "user" "anything" "s1" [sampleSession]
    sampleSession rfl

/-- C9: the memory endpoint answers 404 and issues no search against the
store when the session id does not resolve; when it resolves, exactly one
search with the caller-supplied query text is issued and its ranked results
are returned flattened to author/text/timestamp triples. -/
theorem get_memory_spec (sessions : List Session) (store : List MemoryRecord)
    (sid q : String) :
    (lookupSession sessions sid = none →
      get_memory sessions store sid q
        = (.httpError 404 "Session not found", 0)) ∧
    (∀ s, lookupSession sessions sid = some s →
      get_memory sessions store sid q
        = (.ok ((collectionQuery store (_embed_text q) 5).map
            (fun r =>
              { author := r.metadata.author
                text := r.document
                timestamp := r.metadata.timestamp })), 1)) := by
  constructor
  · intro h
    unfold get_memory
    rw [h]
  · intro s hs
    unfold get_memory
    rw [hs]
    show (ApiResult.ok (((collectionQuery store (_embed_text q) 5).map _).map _), 1) = _
    rw [List.map_map]
    refine congrArg (fun l => (ApiResult.ok l, 1)) (List.map_congr_left ?_)
    intro r _
    show (MemoryOut.mk r.metadata.author
      (if r.document = "" then "" else r.document) r.metadata.timestamp) = _
    by_cases hd : r.document = "" <;> simp [hd]

/-- Concrete instantiation of get_memory_spec, discharging both the
404 branch (unknown id) and the delegation branch (known id). -/
theorem get_memory_spec_witness :
    get_memory [sampleSession] [sampleRecord] "nope" "hi"
      = (.httpError 404 "Session not found", 0) ∧
    get_memory [sampleSession] [sampleRecord] "s1" "hi"
      = (.ok ((collectionQuery [sampleRecord] (_embed_text "hi") 5).map
          (fun r =>
            { author := r.metadata.author
              text := r.document
              timestamp := r.metadata.timestamp })), 1) :=
  ⟨(get_memory_spec [sampleSession] [sampleRecord] "nope" "hi").1 rfl,
   (get_memory_spec [sampleSession] [sampleRecord] "s1" "hi").2
     sampleSession rfl⟩

/-- C10: search_memory does not read its app_name and user_id arguments, so
any two calls differing only in them return identical results; hence the
memory endpoint returns identical memories for any two resolvable session
ids with the same query — the path session id only gates existence. -/
theorem search_scope_independent :
    (∀ (a1 u1 a2 u2 q : String) (store : List MemoryRecord),
      search_memory a1 u1 q store = search_memory a2 u2 q store) ∧
    (∀ (sessions : List Session) (store : List MemoryRecord)
        (sid1 sid2 q : String) (s1 s2 : Session),
      lookupSession sessions sid1 = some s1 →
      lookupSession sessions sid2 = some s2 →
      (get_memory sessions store sid1 q).1
        = (get_memory sessions store sid2 q).1) := by
  constructor
  · intro a1 u1 a2 u2 q store
    rfl
  · intro sessions store sid1 sid2 q s1 s2 h1 h2
    unfold get_memory
    rw [h1, h2]
    rfl

/-- Second resolvable session used to instantiate cross-session theorems. -/
def otherSession : Session :=
  { id := "s2", app_name := "other_app", user_id := "other_user", events := [] }

/-- Concrete instantiation of search_scope_independent: two different
sessions of the registry see the same memories for the same query. -/
theorem search_scope_independent_witness :
    search_memory "maestro" "user" "hi" [sampleRecord]
      = search_memory "other_app" "other_user" "hi" [sampleRecord] ∧
    (get_memory [sampleSession, otherSession] [sampleRecord] "s1" "hi").1
      = (get_memory [sampleSession, otherSession] [sampleRecord] "s2" "hi").1 :=
  ⟨search_scope_independent.1 "maestro" "user" "other_app" "other_user" "hi"
      [sampleRecord],
   search_scope_independent.2 [sampleSession, otherSession] [sampleRecord]
      "s1" "s2" "hi" sampleSession otherSession rfl rfl⟩

end Maestro
